import Mathlib

/-
  Verification development for the KDAudioClock repository
  (src/KDAudioClock/KDAudioClock.ts, src/KDAudioClock/KDAudioClockEvent.ts,
  src/KDAudioClock/KDUIDManager.ts).

  Times are modeled as rationals (JS numbers restricted to the exact values
  the claims exercise).  JS special values Infinity, -Infinity and NaN,
  which the scheduling option parser inspects explicitly, are modeled by
  the JNum type.  The `undefined` value of the option field
  `loop.repetitions` behaves exactly like NaN in the numeric comparisons
  the event class performs on it (`a < undefined` and `a >= undefined` are
  both false in JS, as with NaN), so an absent repetitions field is
  injected into the event state as JNum.nan.
-/

namespace KDClock

/-- Model of a JS number as consumed by the scheduler: a finite rational,
positive or negative infinity, or NaN. -/
inductive JNum where
  | fin (q : ℚ)
  | posInf
  | negInf
  | nan
deriving DecidableEq

/-- JS `a < b` comparison (false whenever either side is NaN). -/
def JNum.lt : JNum → JNum → Bool
  | .fin a, .fin b => decide (a < b)
  | .fin _, .posInf => true
  | .negInf, .fin _ => true
  | .negInf, .posInf => true
  | _, _ => false

/-- JS `a <= b` comparison (false whenever either side is NaN). -/
def JNum.le : JNum → JNum → Bool
  | .fin a, .fin b => decide (a ≤ b)
  | .fin _, .posInf => true
  | .posInf, .posInf => true
  | .negInf, _ => true
  | _, _ => false

/-- Division of a JS number by a positive finite constant (used for the
millisecond-to-second conversions `x / 1000` in the source). -/
def JNum.divC : JNum → ℚ → JNum
  | .fin a, c => .fin (a / c)
  | .posInf, _ => .posInf
  | .negInf, _ => .negInf
  | .nan, _ => .nan

/-- Multiplication of a JS number by a positive finite constant (used for
the second-to-millisecond conversions `x * 1000` in the source). -/
def JNum.mulC : JNum → ℚ → JNum
  | .fin a, c => .fin (a * c)
  | .posInf, _ => .posInf
  | .negInf, _ => .negInf
  | .nan, _ => .nan

/-- Addition of a finite rational and a JS number. -/
def JNum.addQ (q : ℚ) : JNum → JNum
  | .fin a => .fin (q + a)
  | .posInf => .posInf
  | .negInf => .negInf
  | .nan => .nan

/-- Per-event state of KDAudioClockEvent (`self` in KDAudioClockEvent.ts):
the suspended flag, the deadline triple maintained by `update`, the
tolerance pair, the loop bookkeeping and the presence of each of the four
user callbacks (callbacks are modeled by presence flags; every invocation
is recorded in the surrounding clock state's `fired` log).  Intervals are
in milliseconds, deadlines and tolerances in seconds, exactly as in the
source. -/
structure EventState where
  suspended : Bool
  scheduled : ℚ
  earliest : ℚ
  latest : ℚ
  tolEarly : ℚ
  tolLate : ℚ
  initialInterval : ℚ
  currentInterval : ℚ
  repetitions : JNum
  elapsedTickCount : ℚ
  timeStretch : ℚ
  cbTick : Bool
  cbComplete : Bool
  cbAborted : Bool
  cbMissed : Bool
deriving DecidableEq

/-- A record of one user-callback invocation. -/
inductive Fired where
  | tick
  | missed
  | completed
  | aborted
deriving DecidableEq

/-- The scheduler state restricted to a single event of interest: the
current time of the audio context, the running flag, whether the event is
in the event queue (`self.events.indexOf(event) !== -1`), the identifier
the uid manager holds for the event (none when unregistered), a fresh-uid
counter, the event record, the log of callbacks fired so far, and the
deleted flag of the event. -/
structure ClockState where
  now : ℚ
  isRunning : Bool
  inQueue : Bool
  uid : Option ℕ
  nextUid : ℕ
  ev : EventState
  fired : List Fired
  deleted : Bool
deriving DecidableEq

/-- KDAudioClockEvent `_self.update`: set the scheduled deadline and the
derived earliest and latest bounds from the tolerance pair. -/
def update (deadline : ℚ) (e : EventState) : EventState :=
  { e with
      scheduled := deadline
      latest := deadline + e.tolLate
      earliest := deadline - e.tolEarly }

/-- KDAudioClockEvent `_self.isLooping`:
`elapsedTickCount < repetitions` under JS comparison semantics
(always true for repetitions = Infinity, always false for
repetitions = NaN or an absent field). -/
def isLooping (e : EventState) : Bool :=
  JNum.lt (.fin e.elapsedTickCount) e.repetitions

/-- KDAudioClock `_self.removeEvent`: splice the event out of the queue. -/
def removeEvent (s : ClockState) : ClockState :=
  { s with inQueue := false }

/-- KDAudioClock `_self.insertEvent`: splice the event into the queue at
its sorted position and register a fresh uid when the manager holds none
for it.  (The position within the queue is studied separately through
`indexByTime`.) -/
def insertEvent (s : ClockState) : ClockState :=
  let s := { s with inQueue := true }
  match s.uid with
  | some _ => s
  | none => { s with uid := some s.nextUid, nextUid := s.nextUid + 1 }

/-- The requeue helper inside KDAudioClockEvent `_self.schedule`:
`if (self.clock.hasEvent(this)) self.clock._removeEvent(this);
self.clock._insertEvent(this);`. -/
def requeue (s : ClockState) : ClockState :=
  insertEvent (if s.inQueue then removeEvent s else s)

/-- KDAudioClockEvent `_self.suspend`: remove from the queue and set the
suspended flag (the uid registration is retained). -/
def suspendEvent (s : ClockState) : ClockState :=
  if s.deleted then s
  else { s with inQueue := false, ev := { s.ev with suspended := true } }

/-- Append a callback invocation to the log. -/
def pushFired (f : Fired) (s : ClockState) : ClockState :=
  { s with fired := s.fired ++ [f] }

/-- KDAudioClockEvent `_self.delete`: fire `onAborted` when the event is
still looping and an aborted handler exists, otherwise fire `onComplete`
when a complete handler exists; then suspend, unregister the uid from the
manager, destroy the event and mark it deleted. -/
def deleteEvent (s : ClockState) : ClockState :=
  if s.deleted then s
  else
    let s :=
      if isLooping s.ev && s.ev.cbAborted then pushFired .aborted s
      else if s.ev.cbComplete then pushFired .completed s
      else s
    let s := suspendEvent s
    { s with uid := none, deleted := true }

/-- The callback-selection block of KDAudioClockEvent `_self.execute`:
classify the firing as on-time when
`earliest <= currentTime && currentTime <= latest`; invoke `onTick` when
on-time and a tick handler is present, `else if` a missed handler is
present invoke it, else invoke nothing. -/
inductive FireChoice where
  | tick
  | missed
  | neither
deriving DecidableEq

/-- The classification performed by `_self.execute` for a single firing
(KDAudioClockEvent.ts, the `onTime` computation and the following
if / else-if chain). -/
def fireChoice (now : ℚ) (e : EventState) : FireChoice :=
  let onTime := decide (e.earliest ≤ now) && decide (now ≤ e.latest)
  if onTime && e.cbTick then .tick
  else if e.cbMissed then .missed
  else .neither

/-- Actions of the mutually recursive pair `_self.schedule` /
`_self.execute` of KDAudioClockEvent. -/
inductive EvAct where
  | sched (deadline : ℚ) (sync : Bool)
  | exec

/-- Fuel-indexed translation of KDAudioClockEvent `_self.schedule`
(deadline, sync flag) and `_self.execute`.  `schedule` clears the
suspended flag, updates the deadline triple, requeues when the sync flag
is set, and otherwise executes immediately when the current time has
reached the earliest bound, else requeues.  `execute` returns early when
deleted, not running or suspended; otherwise it removes the event from
the queue, increments the elapsed tick count, fires the callback chosen
by `fireChoice`, deletes the event when `elapsedTickCount >= repetitions`
(JS comparison), and otherwise reschedules at
`scheduled + currentInterval / 1000` when the event is queue-absent,
still looping and not suspended.  The result is `none` exactly when the
fuel runs out.  (The check `if (deleted) return;` after the user callback
is vacuous here because callbacks are modeled as inert presence flags;
the `scheduleGuard` test `self.suspended === undefined` can only trip
after clock.stop, which does not occur in the modeled scenarios.) -/
def evStep : ℕ → EvAct → ClockState → Option ClockState
  | 0, _, _ => none
  | fuel + 1, .sched d sync, s =>
    if s.deleted then some s
    else
      let s := { s with ev := update d { s.ev with suspended := false } }
      if sync then some (requeue s)
      else if s.ev.earliest ≤ s.now then evStep fuel .exec s
      else some (requeue s)
  | fuel + 1, .exec, s =>
    if s.deleted then some s
    else if !s.isRunning || s.ev.suspended then some s
    else
      let s := removeEvent s
      let s := { s with ev := { s.ev with elapsedTickCount := s.ev.elapsedTickCount + 1 } }
      let s :=
        match fireChoice s.now s.ev with
        | .tick => pushFired .tick s
        | .missed => pushFired .missed s
        | .neither => s
      if JNum.le s.ev.repetitions (.fin s.ev.elapsedTickCount) then
        some (deleteEvent s)
      else
        let ready := !s.inQueue && isLooping s.ev && !s.ev.suspended
        let dl := s.ev.scheduled + s.ev.currentInterval / 1000
        if ready then evStep fuel (.sched dl false) s else some s

/-- KDAudioClock `_self.sync` restricted to a single target event:
compute `deadline = context.currentTime + delay / 1000` and call the
event's public `schedule(deadline)` method, which is
`_self.schedule(deadline)` with the sync flag left at its default
`false`. -/
def clockSync (fuel : ℕ) (delayMs : ℚ) (s : ClockState) : Option ClockState :=
  evStep fuel (.sched (s.now + delayMs / 1000) false) s

/-- KDAudioClockEvent `_self.sync`: compute
`deadline = currentTime + delayInMs / 1000` and call
`_self.schedule(dl, true)` with the sync flag set. -/
def eventSync (fuel : ℕ) (delayMs : ℚ) (s : ClockState) : Option ClockState :=
  evStep fuel (.sched (s.now + delayMs / 1000) true) s

/-- Addition of a JS number and a finite rational (NaN propagates, as
does the arithmetic of an undefined operand, rendered as nan). -/
def JNum.addC : JNum → ℚ → JNum
  | .fin a, c => .fin (a + c)
  | .posInf, _ => .posInf
  | .negInf, _ => .negInf
  | .nan, _ => .nan

/-- Subtraction of a finite rational from a JS number (NaN propagates,
as does the arithmetic of an undefined operand, rendered as nan). -/
def JNum.subC : JNum → ℚ → JNum
  | .fin a, c => .fin (a - c)
  | .posInf, _ => .posInf
  | .negInf, _ => .negInf
  | .nan, _ => .nan

/-- The deadline triple of an event whose scheduled deadline may carry a
JS special value (in particular `undefined`, which behaves as NaN in the
arithmetic and comparisons the event performs on it). -/
structure JDeadline where
  scheduled : JNum
  earliest : JNum
  latest : JNum
deriving DecidableEq

/-- KDAudioClockEvent `_self.update` evaluated at a deadline that may be
a JS special value: `scheduled = deadline`,
`latest = deadline + tolerance.late`,
`earliest = deadline - tolerance.early`. -/
def updateJ (d : JNum) (tolEarly tolLate : ℚ) : JDeadline :=
  ⟨d, d.subC tolEarly, d.addC tolLate⟩

/-- The observable outcome of the public scheduler call on an existing
event: queue membership, the identifier held by the manager, the elapsed
tick count, the callback log, the deadline triple and the suspended
flag. -/
structure PublicSchedOutcome where
  inQueue : Bool
  uid : Option ℕ
  elapsedTickCount : ℚ
  fired : List Fired
  deadline : JDeadline
  suspended : Bool
deriving DecidableEq

/-- The public scheduler entry point applied to an existing event with a
requested deadline t: the wrapper
`this.schedule = (opts) => _self.schedule(opts)` (KDAudioClock.ts line
1006) forwards only the first argument, so t is dropped here and
`_self.schedule` runs with deadline = undefined.  After the not-running
guard and the scheduleGuard (a destroyed event returns with a warning),
the event-instance branch calls `event.schedule(deadline)` with the raw
undefined deadline; KDAudioClockEvent `_self.schedule(undefined, false)`
clears the suspended flag and runs `update(undefined)`, leaving
scheduled = undefined and NaN earliest/latest bounds (undefined is
rendered as nan, matching its arithmetic and comparison behavior); the
past-due test `currentTime >= earliest` is false against a NaN bound, so
the event is requeued (keeping its registered uid) and nothing
executes. -/
def clockSchedulePublic (t : ℚ) (s : ClockState) : Option PublicSchedOutcome :=
  if !s.isRunning then none
  else if s.deleted then none
  else
    let dl := updateJ .nan s.ev.tolEarly s.ev.tolLate
    let onTime := JNum.le dl.earliest (.fin s.now)
    if onTime then none
    else
      let uid' := match s.uid with
        | some u => some u
        | none => some s.nextUid
      some ⟨true, uid', s.ev.elapsedTickCount, s.fired, dl, false⟩

/-- An entry of the event queue as seen by the tick loop: an event
identity together with its earliest allowed fire time
(`event.get.nextDeadline().earliest`). -/
structure QEntry where
  id : ℕ
  earliest : ℚ
deriving DecidableEq

/-- KDAudioClock `_self.tick`: shift the queue's head entry and, while
that entry exists and its earliest bound is at most the current time,
execute it and shift the next one; when an entry's earliest bound is
still in the future, unshift it back and stop.  `event._execute()` is
rendered as consuming the entry and adding it to the fired list: the
execute path has already removed the event from the queue when it is
reached through the tick loop, and any re-insertion it initiates via
`_self.schedule` targets a strictly future earliest bound (the past-due
branch of `schedule` executes instead of requeueing), which this loop
never reaches. -/
def tickDrain (now : ℚ) : List QEntry → List QEntry × List QEntry
  | [] => ([], [])
  | e :: rest =>
    if e.earliest ≤ now then
      let r := tickDrain now rest
      (e :: r.1, r.2)
    else ([], e :: rest)

/-- KDAudioClock `_self.indexByTime`, the while loop: binary search with
`low`, `high` and `mid = floor((low + high) / 2)`, moving `low` past
`mid` when the entry at `mid` has earliest bound strictly below the
deadline and lowering `high` to `mid` otherwise (an out-of-range access
yields undefined, whose comparison is false, as in JS).  The loop is
driven by fuel; `high - low` shrinks every iteration, so any fuel
exceeding the initial `high - low` computes the exact fixpoint. -/
def indexByTimeAux (keys : List ℚ) (deadline : ℚ) : ℕ → ℕ → ℕ → ℕ
  | 0, low, _ => low
  | fuel + 1, low, high =>
    if low < high then
      let mid := (low + high) / 2
      let early :=
        match keys.get? mid with
        | some q => decide (q < deadline)
        | none => false
      if early then indexByTimeAux keys deadline fuel (mid + 1) high
      else indexByTimeAux keys deadline fuel low mid
    else low

/-- KDAudioClock `_self.indexByTime` over the queue's earliest-bound
keys: the binary search starts at `low = 0`, `high = events.length`. -/
def indexByTime (keys : List ℚ) (deadline : ℚ) : ℕ :=
  indexByTimeAux keys deadline (keys.length + 1) 0 keys.length

/-- The queue update `self.events.splice(index, 0, event)` performed by
KDAudioClock `_self.insertEvent`. -/
def spliceAt (n : ℕ) (x : ℚ) (l : List ℚ) : List ℚ :=
  l.take n ++ x :: l.drop n

/-- The loop descriptor of a declarative scheduling request
(`KDAudioClockEventOptions.loop`): optional interval and repetitions,
each an arbitrary JS number when present. -/
structure LoopOpts where
  interval : Option JNum
  repetitions : Option JNum
deriving DecidableEq

/-- The tolerance descriptor of a declarative scheduling request. -/
structure TolOpts where
  early : Option ℚ
  late : Option ℚ
deriving DecidableEq

/-- A declarative scheduling request (`KDAudioClockEventOptions`):
optional delay, loop and tolerance, plus the presence of each callback. -/
structure ScheduleOpts where
  delay : Option JNum
  loop : Option LoopOpts
  tolerance : Option TolOpts
  cbTick : Bool
  cbComplete : Bool
  cbAborted : Bool
  cbMissed : Bool
deriving DecidableEq

/-- The clock's tolerance pair (`self.tolerance`). -/
structure Tolerance where
  early : ℚ
  late : ℚ
deriving DecidableEq

/-- JS truthiness of an optional numeric field: false for an absent
field, 0 and NaN; true for every other number including the
infinities. -/
def truthy : Option JNum → Bool
  | none => false
  | some (.fin q) => decide (q ≠ 0)
  | some .posInf => true
  | some .negInf => true
  | some .nan => false

/-- JS `typeof x === 'number'` for an optional numeric field: true
exactly when the field is present (Infinity and NaN are numbers). -/
def isNumber (x : Option JNum) : Bool :=
  x.isSome

/-- The interval of a request's loop descriptor (`ev?.loop?.interval`). -/
def loopInterval (ev : ScheduleOpts) : Option JNum :=
  ev.loop.bind (·.interval)

/-- The repetitions of a request's loop descriptor
(`ev?.loop?.repetitions`). -/
def loopRepetitions (ev : ScheduleOpts) : Option JNum :=
  ev.loop.bind (·.repetitions)

/-- The default-resolution block at the head of the declarative branch of
KDAudioClock `_self.schedule`: a numeric delay with falsy interval and
falsy repetitions overwrites the loop with `{ repetitions: 1 }`; else a
falsy delay with a numeric interval and falsy repetitions sets
`loop.repetitions = Infinity`.  Both branches mutate the caller's
object. -/
def resolveDefaults (ev : ScheduleOpts) : ScheduleOpts :=
  if isNumber ev.delay && !truthy (loopInterval ev) && !truthy (loopRepetitions ev) then
    { ev with loop := some ⟨none, some (.fin 1)⟩ }
  else if !truthy ev.delay && isNumber (loopInterval ev) && !truthy (loopRepetitions ev) then
    match ev.loop with
    | some l => { ev with loop := some { l with repetitions := some .posInf } }
    | none => ev
  else ev

/-- One clause of `getDelay` inside KDAudioClock `_self.schedule`: a
present, non-NaN number contributes its value divided by 1000, otherwise
nothing. -/
def getDelayFrom (x : Option JNum) : Option JNum :=
  match x with
  | some d => if d = .nan then none else some (d.divC 1000)
  | none => none

/-- `getDelay` inside KDAudioClock `_self.schedule`: the delay when it is
a non-NaN number, else the loop interval when that is a non-NaN number,
else 0. -/
def getDelay (ev : ScheduleOpts) : JNum :=
  ((getDelayFrom ev.delay).getD ((getDelayFrom (loopInterval ev)).getD (.fin 0)))

/-- The tolerance-filling block of KDAudioClock `_self.createEvent`: when
the request has no tolerance property, the clock's own tolerance object
is assigned to it (an aliasing assignment; rendered here by its value);
a missing early or late member is then filled from the clock's
tolerance.  The presence tests are evaluated on the original request, as
in the source. -/
def fillTolerance (clockTol : Tolerance) (ev : ScheduleOpts) : ScheduleOpts :=
  let noTol := ev.tolerance.isNone
  let noEarly := !(ev.tolerance.bind (·.early)).isSome
  let noLate := !(ev.tolerance.bind (·.late)).isSome
  let t : TolOpts :=
    if noTol then ⟨some clockTol.early, some clockTol.late⟩
    else ev.tolerance.getD ⟨none, none⟩
  let t := if noEarly then { t with early := some clockTol.early } else t
  let t := if noLate then { t with late := some clockTol.late } else t
  { ev with tolerance := some t }

/-- The initial record of a newly created event, as assembled by
`_self.createEvent`, the KDAudioClockEvent constructor and the
`updateWithInterval` call that follows it: the scheduled deadline
`_deadline + interval`, the initial and current loop intervals in
milliseconds (`interval * 1000`, times the default time stretch 1), the
repetitions taken from the request's loop descriptor (possibly absent),
and the tolerance pair read from the filled request. -/
structure EventInit where
  deadline : JNum
  initialInterval : JNum
  currentInterval : JNum
  repetitions : Option JNum
  tolEarly : ℚ
  tolLate : ℚ
  cbTick : Bool
  cbComplete : Bool
  cbAborted : Bool
  cbMissed : Bool
deriving DecidableEq

/-- The diagnostics the declarative branch of KDAudioClock
`_self.schedule` can emit via console.warn. -/
inductive Warn where
  | notRunning
  | mustNotBeInfinite
  | mustSetOne
deriving DecidableEq

/-- The observable outcome of a declarative `schedule` call: the caller's
request object as left by the call, the diagnostic when the request was
rejected, the created event's initial record when it was accepted, and
whether a uid was generated. -/
structure SchedResult where
  opts : ScheduleOpts
  warn : Option Warn
  event : Option EventInit
  uidGenerated : Bool
deriving DecidableEq

/-- The declarative branch of KDAudioClock `_self.schedule` (request
options object, no explicit deadline, so `_deadline = currentTime`):
the not-running guard; the default-resolution mutation; the guards
against an infinite delay, a falsy delay with falsy interval and
infinite repetitions, and an absent delay with absent loop; `getDelay`
with the 50 ms floor to 5 ms (`interval >= 0.05 ? interval : 0.005` in
seconds); then event creation at `_deadline + interval` with the filled
tolerance, uid generation and `updateWithInterval(interval * 1000)`. -/
def scheduleDecl (running : Bool) (now : ℚ) (clockTol : Tolerance)
    (opts0 : ScheduleOpts) : SchedResult :=
  if !running then ⟨opts0, some .notRunning, none, false⟩
  else
    let ev := resolveDefaults opts0
    let infiniteDelay := ev.delay = some .posInf
    let noDelayOrLoop := ev.delay = none ∧ ev.loop = none
    let zeroDelayWithInfiniteRepetitions :=
      !truthy ev.delay && !truthy (loopInterval ev)
        && decide (loopRepetitions ev = some .posInf)
    if infiniteDelay ∨ zeroDelayWithInfiniteRepetitions then
      ⟨ev, some .mustNotBeInfinite, none, false⟩
    else if noDelayOrLoop then
      ⟨ev, some .mustSetOne, none, false⟩
    else
      let interval0 := getDelay ev
      let interval := if JNum.le (.fin (1 / 20)) interval0 then interval0 else .fin (1 / 200)
      let ev' := fillTolerance clockTol ev
      let tolE := ((ev'.tolerance.getD ⟨none, none⟩).early).getD 0
      let tolL := ((ev'.tolerance.getD ⟨none, none⟩).late).getD 0
      let init : EventInit :=
        { deadline := JNum.addQ now interval
          initialInterval := interval.mulC 1000
          currentInterval := (interval.mulC 1000).mulC 1
          repetitions := loopRepetitions ev'
          tolEarly := tolE
          tolLate := tolL
          cbTick := ev'.cbTick
          cbComplete := ev'.cbComplete
          cbAborted := ev'.cbAborted
          cbMissed := ev'.cbMissed }
      ⟨ev', none, some init, true⟩

/-- The catch-up while loop inside KDAudioClockEvent `_self.timeStretch`:
`while (time <= latest) deadline += newInterval / 1000`.  Both `time`
and `latest` are fixed before the loop in the source, so the condition
never changes; the fuel makes the non-termination observable as `none`. -/
def stretchLoop : ℕ → ℚ → ℚ → ℚ → ℚ → Option ℚ
  | 0, _, _, _, _ => none
  | fuel + 1, time, latest, stepMs, deadline =>
    if time ≤ latest then stretchLoop fuel time latest stepMs (deadline + stepMs)
    else some deadline

/-- KDAudioClockEvent `_self.timeStretch`: a no-op on deleted or
non-looping events; otherwise remove from the queue, record the last
fired deadline `old = scheduled - currentInterval / 1000`, set the
stretch ratio and `currentInterval = initialInterval * ratio`, derive
the candidate deadline `old + currentInterval / 1000`, and when the
current time has passed `deadline - tolerance.early`, run the catch-up
loop against the bound `latest = deadline - tolerance.late` computed
once; finally call `_self.schedule` on the resulting deadline. -/
def timeStretchEv (fuel : ℕ) (ratio : ℚ) (s : ClockState) : Option ClockState :=
  if s.deleted then some s
  else if !isLooping s.ev then some s
  else
    let s := if s.inQueue then removeEvent s else s
    let interval := s.ev.currentInterval
    let old := s.ev.scheduled - interval / 1000
    let e := { s.ev with timeStretch := ratio,
                         currentInterval := s.ev.initialInterval * ratio }
    let s := { s with ev := e }
    let deadline := old + e.currentInterval / 1000
    let earliest := deadline - e.tolEarly
    let dl? :=
      if earliest ≤ s.now then
        stretchLoop fuel s.now (deadline - e.tolLate) (e.currentInterval / 1000) deadline
      else some deadline
    match dl? with
    | none => none
    | some d => evStep fuel (.sched d false) s

/-- A concrete event used to exercise the execute classification: the
firing window is [9, 11], there is no tick handler, and a missed handler
is present. -/
def c1ev : EventState :=
  { suspended := false, scheduled := 10, earliest := 9, latest := 11
    tolEarly := 1, tolLate := 1
    initialInterval := 1000, currentInterval := 1000
    repetitions := .posInf, elapsedTickCount := 0, timeStretch := 1
    cbTick := false, cbComplete := false, cbAborted := false, cbMissed := true }

/-- A concrete repeating event with the clock's default tolerance
(early 0.001, late 0.1), interval 1000 ms, scheduled at 11 while the
current time is 10, queued and registered, with a tick handler and a
missed handler. -/
def exEvent : EventState :=
  { suspended := false, scheduled := 11, earliest := 11 - 1 / 1000, latest := 11 + 1 / 10
    tolEarly := 1 / 1000, tolLate := 1 / 10
    initialInterval := 1000, currentInterval := 1000
    repetitions := .posInf, elapsedTickCount := 0, timeStretch := 1
    cbTick := true, cbComplete := false, cbAborted := false, cbMissed := true }

/-- The clock state around `exEvent` at current time 10, running. -/
def exState : ClockState :=
  { now := 10, isRunning := true, inQueue := true, uid := some 0, nextUid := 1
    ev := exEvent, fired := [], deleted := false }

/-- A concrete looping event mid-flight: 2 of 5 repetitions elapsed, with
aborted and complete handlers. -/
def c7state : ClockState :=
  { exState with
      ev := { exEvent with repetitions := .fin 5, elapsedTickCount := 2
                           cbComplete := true, cbAborted := true } }

/-- The time-stretch failing input: tolerance early 0.2 and late 0.02
(the tolerances of the repository's own custom-event test), loop interval
100 ms, scheduled at 1.0 with the current time 1.0. -/
def c8state : ClockState :=
  { exState with
      now := 1
      ev := { exEvent with scheduled := 1, earliest := 1 - 1 / 5, latest := 1 + 1 / 50
                           tolEarly := 1 / 5, tolLate := 1 / 50
                           initialInterval := 100, currentInterval := 100
                           cbMissed := false } }

/-- C1 counterexample input: on-time firing (earliest 9 <= now 10 <=
latest 11) of an event with no onTick handler and an onMissed handler. -/
def c1now : ℚ := 10

/-- A concrete rejected request: delay Infinity, no loop, no tolerance,
no callbacks. -/
def c9opts : ScheduleOpts := ⟨some .posInf, none, none, false, false, false, false⟩

/- ------------------------------------------------------------------ -/
/- Theorems -/
/- ------------------------------------------------------------------ -/

/-- C1 (counterexample): at current time 10 the event `c1ev` is on-time
(its window is [9, 11]), yet the execute classification invokes the
onMissed handler, because the source guards the tick branch with
`onTime && onTick` and `c1ev` has no onTick handler; this falsifies the
claim's clause that an on-time firing never invokes onMissed. -/
theorem C1_counterexample :
    (c1ev.earliest ≤ c1now ∧ c1now ≤ c1ev.latest)
    ∧ fireChoice c1now c1ev = .missed := by
  refine ⟨⟨?_, ?_⟩, ?_⟩ <;> norm_num [fireChoice, c1ev, c1now]

/-- C1 (amended): for every firing, the classification is on-time exactly
when earliest <= now <= latest; an on-time firing with an onTick handler
invokes onTick and never onMissed; a missed firing with an onMissed
handler invokes onMissed; and an on-time firing without an onTick handler
but with an onMissed handler invokes onMissed (the selection returns a
single choice, so no firing invokes both). -/
theorem C1_on_time_classification (now : ℚ) (e : EventState) :
    (fireChoice now e = .tick ↔ ((e.earliest ≤ now ∧ now ≤ e.latest) ∧ e.cbTick = true))
    ∧ ((e.earliest ≤ now ∧ now ≤ e.latest) → e.cbTick = true → fireChoice now e = .tick)
    ∧ ((e.earliest ≤ now ∧ now ≤ e.latest) → e.cbTick = true → fireChoice now e ≠ .missed)
    ∧ (¬(e.earliest ≤ now ∧ now ≤ e.latest) → e.cbMissed = true → fireChoice now e = .missed)
    ∧ ((e.earliest ≤ now ∧ now ≤ e.latest) → e.cbTick = false → e.cbMissed = true →
        fireChoice now e = .missed) := by
  by_cases h1 : e.earliest ≤ now <;> by_cases h2 : now ≤ e.latest <;>
    cases hc : e.cbTick <;> cases hm : e.cbMissed <;>
      simp [fireChoice, h1, h2, hc, hm]

/-- C5 (code evaluated at the failing input): the clock-level sync with
the default delay 0 on the queued event `exState` executes the event
immediately — the onTick callback runs during the sync call and the
elapsed tick count increments to 1, with the event then requeued one
interval later at 11 — whereas the event-level sync (which passes the
sync flag that bypasses the past-due fast path) requeues at the computed
deadline 10 without firing anything.  The clock's sync calls
`event.schedule(deadline)` instead of the event's own sync path, so the
fast-path bypass the claim describes does not happen. -/
theorem C5_sync_executes_immediately :
    (clockSync 10 0 exState).map
        (fun s => (s.fired, s.ev.elapsedTickCount, s.ev.scheduled, s.inQueue))
      = some ([Fired.tick], 1, 11, true)
    ∧ (eventSync 10 0 exState).map
        (fun s => (s.fired, s.ev.elapsedTickCount, s.ev.scheduled, s.inQueue))
      = some ([], 0, 10, true) := by
  constructor <;>
    norm_num [clockSync, eventSync, evStep, exState, exEvent, update, fireChoice,
      requeue, insertEvent, removeEvent, pushFired, deleteEvent, suspendEvent,
      isLooping, JNum.le, JNum.lt]

/-- C6 (code evaluated at the failing input): suspending the live
registered event of `exState` (current time 10, elapsed tick count 0,
uid 0) and then calling the public scheduler entry point with deadline
20 requeues the event with its identifier and elapsed tick count intact
and nothing fired — but the scheduled deadline and both fire bounds come
out as NaN, not 20: the public wrapper drops the deadline argument, so
`event.schedule(undefined)` runs instead of `event.schedule(20)`.  The
final conjunct shows a NaN earliest bound satisfies no due test, so the
requeued event can never fire again. -/
theorem C6_schedule_drops_deadline :
    clockSchedulePublic 20 (suspendEvent exState)
      = some ⟨true, some 0, 0, [], ⟨.nan, .nan, .nan⟩, false⟩
    ∧ (clockSchedulePublic 20 (suspendEvent exState)).map (fun o => o.deadline.scheduled)
      ≠ some (.fin 20)
    ∧ (∀ x : JNum, JNum.le .nan x = false) := by
  refine ⟨?_, ?_, fun x => by cases x <;> rfl⟩
  · norm_num [clockSchedulePublic, suspendEvent, updateJ, exState, exEvent,
      JNum.le, JNum.subC, JNum.addC]
  · norm_num [clockSchedulePublic, suspendEvent, updateJ, exState, exEvent,
      JNum.le, JNum.subC, JNum.addC]
    exact fun h => JNum.noConfusion h

/-- C7: the terminal-callback selection of delete — for a live event with
finite repetitions r, deleting while the elapsed tick count is still
below r with an aborted handler present fires onAborted and not
onComplete; deleting at or after completion (r <= elapsed count) fires
onComplete when that handler is present and never onAborted. -/
theorem C7_delete_terminal_callback (s : ClockState) (r : ℚ)
    (hdel : s.deleted = false) (hrep : s.ev.repetitions = JNum.fin r) :
    (s.ev.elapsedTickCount < r → s.ev.cbAborted = true →
      (deleteEvent s).fired = s.fired ++ [Fired.aborted])
    ∧ (r ≤ s.ev.elapsedTickCount →
      (deleteEvent s).fired =
        s.fired ++ (if s.ev.cbComplete then [Fired.completed] else [])) := by
  constructor
  · intro hlt hab
    simp [deleteEvent, hdel, isLooping, hrep, JNum.lt, hlt, hab, pushFired,
      suspendEvent]
  · intro hge
    have hnl : ¬ (s.ev.elapsedTickCount < r) := not_lt.mpr hge
    cases hc : s.ev.cbComplete <;>
      simp [deleteEvent, hdel, isLooping, hrep, JNum.lt, hnl, hc, pushFired,
        suspendEvent]

/-- C7 (witness): the terminal-callback selection applied to the concrete
mid-flight looping event `c7state` (2 of 5 repetitions elapsed, both
terminal handlers present). -/
theorem C7_witness :
    (c7state.deleted = false ∧ c7state.ev.repetitions = JNum.fin 5)
    ∧ ((c7state.ev.elapsedTickCount < 5 → c7state.ev.cbAborted = true →
          (deleteEvent c7state).fired = c7state.fired ++ [Fired.aborted])
      ∧ (5 ≤ c7state.ev.elapsedTickCount →
          (deleteEvent c7state).fired =
            c7state.fired ++ (if c7state.ev.cbComplete then [Fired.completed] else []))) :=
  ⟨⟨rfl, rfl⟩, C7_delete_terminal_callback c7state 5 rfl rfl⟩

/-- Helper for C8: the catch-up loop of timeStretch never terminates once
its entry condition holds, because the bound `latest` is computed before
the loop and the loop changes only `deadline`. -/
theorem stretchLoop_eq_none (t l stepQ : ℚ) (h : t ≤ l) :
    ∀ fuel d, stretchLoop fuel t l stepQ d = none := by
  intro fuel
  induction fuel with
  | zero => intro d; rfl
  | succ fuel ih => intro d; simpa [stretchLoop, h] using ih (d + stepQ)

/-- C8 (code evaluated at the failing input): on the concrete state
`c8state` (tolerance early 0.2, late 0.02, interval 100 ms, scheduled
1.0, current time 1.0), timeStretch with ratio 2 never terminates for
any loop fuel: the candidate deadline is 1.1, the entry test
1.1 - 0.2 <= 1 holds, and the loop bound `latest = 1.1 - 0.02` is fixed
while `time = 1 <= latest` stays true forever.  This contradicts the
claim that the walk terminates with a deadline outside the past-due
window. -/
theorem C8_timestretch_nonterminating :
    ∀ fuel, timeStretchEv fuel 2 c8state = none := by
  intro fuel
  have hcond : (1 : ℚ) ≤ (1 - 100 / 1000 + 100 * 2 / 1000) - 1 / 50 := by norm_num
  have hloop := stretchLoop_eq_none 1
    ((1 - 100 / 1000 + 100 * 2 / 1000) - 1 / 50) (100 * 2 / 1000) hcond fuel
    (1 - 100 / 1000 + 100 * 2 / 1000)
  norm_num [timeStretchEv, c8state, exState, exEvent, isLooping, JNum.lt,
    removeEvent] at hloop ⊢
  norm_num [hloop]

/-- Helper: the tick loop computes the takeWhile/dropWhile split of the
queue at the due predicate. -/
theorem tickDrain_eq (now : ℚ) (q : List QEntry) :
    tickDrain now q = (q.takeWhile (fun e => decide (e.earliest ≤ now)),
                       q.dropWhile (fun e => decide (e.earliest ≤ now))) := by
  induction q with
  | nil => rfl
  | cons e rest ih =>
    by_cases h : e.earliest ≤ now <;>
      simp [tickDrain, List.takeWhile_cons, List.dropWhile_cons, h, ih]

/-- Helper: on a queue sorted by earliest bound, every due entry is in
the fired prefix. -/
theorem tickDrain_complete (now : ℚ) :
    ∀ q : List QEntry, q.Pairwise (fun a b => a.earliest ≤ b.earliest) →
      ∀ e ∈ q, e.earliest ≤ now → e ∈ (tickDrain now q).1 := by
  intro q
  induction q with
  | nil => intro _ e he; simp at he
  | cons a rest ih =>
    intro hs e he hle
    obtain ⟨ha, hrest⟩ := List.pairwise_cons.mp hs
    by_cases h : a.earliest ≤ now
    · simp only [tickDrain, h, if_pos, List.mem_cons]
      rcases List.mem_cons.mp he with rfl | he2
      · left; rfl
      · right; simpa using ih hrest e he2 hle
    · rcases List.mem_cons.mp he with rfl | he2
      · exact absurd hle h
      · exact absurd (le_trans (ha e he2) hle) h

/-- C2: on each time-source callback, the tick loop fires exactly the
maximal due prefix of the queue: the fired entries are the takeWhile of
the due predicate, the remaining queue is the dropWhile (the first
not-yet-due entry is pushed back with everything after it), every fired
entry was due (earliest bound at most the current time), and — for the
queue sorted by earliest bound, as the insertion routine maintains it —
every due entry of the queue fires within the single tick. -/
theorem C2_tick_drains_due (now : ℚ) (q : List QEntry)
    (hs : q.Pairwise (fun a b => a.earliest ≤ b.earliest)) :
    (tickDrain now q).1 = q.takeWhile (fun e => decide (e.earliest ≤ now))
    ∧ (tickDrain now q).2 = q.dropWhile (fun e => decide (e.earliest ≤ now))
    ∧ (∀ e ∈ (tickDrain now q).1, e.earliest ≤ now)
    ∧ (∀ e ∈ q, e.earliest ≤ now → e ∈ (tickDrain now q).1) := by
  refine ⟨by rw [tickDrain_eq], by rw [tickDrain_eq], ?_, tickDrain_complete now q hs⟩
  intro e he
  rw [tickDrain_eq] at he
  simpa using List.mem_takeWhile_imp he

/-- C2 (witness): the tick loop applied to a concrete sorted queue of
three entries with earliest bounds 1, 2, 5 at current time 3. -/
theorem C2_witness :
    (([⟨0, 1⟩, ⟨1, 2⟩, ⟨2, 5⟩] : List QEntry).Pairwise (fun a b => a.earliest ≤ b.earliest))
    ∧ ((tickDrain 3 [⟨0, 1⟩, ⟨1, 2⟩, ⟨2, 5⟩]).1
        = ([⟨0, 1⟩, ⟨1, 2⟩, ⟨2, 5⟩] : List QEntry).takeWhile (fun e => decide (e.earliest ≤ 3))
      ∧ (tickDrain 3 [⟨0, 1⟩, ⟨1, 2⟩, ⟨2, 5⟩]).2
        = ([⟨0, 1⟩, ⟨1, 2⟩, ⟨2, 5⟩] : List QEntry).dropWhile (fun e => decide (e.earliest ≤ 3))
      ∧ (∀ e ∈ (tickDrain 3 ([⟨0, 1⟩, ⟨1, 2⟩, ⟨2, 5⟩] : List QEntry)).1, e.earliest ≤ 3)
      ∧ (∀ e ∈ ([⟨0, 1⟩, ⟨1, 2⟩, ⟨2, 5⟩] : List QEntry), e.earliest ≤ 3
          → e ∈ (tickDrain 3 ([⟨0, 1⟩, ⟨1, 2⟩, ⟨2, 5⟩] : List QEntry)).1)) :=
  ⟨by norm_num [List.pairwise_cons],
    C2_tick_drains_due 3 [⟨0, 1⟩, ⟨1, 2⟩, ⟨2, 5⟩] (by norm_num [List.pairwise_cons])⟩

/-- Helper: in a list sorted by ≤, entries are monotone in the index. -/
theorem sorted_getElem_mono (keys : List ℚ) (hs : keys.Pairwise (· ≤ ·))
    {i j : ℕ} (hij : i ≤ j) (hi : i < keys.length) (hj : j < keys.length) :
    keys[i] ≤ keys[j] := by
  rcases eq_or_lt_of_le hij with rfl | h
  · exact le_refl _
  · exact List.pairwise_iff_getElem.mp hs i j hi hj h

/-- Helper: the binary-search loop invariant — starting from a window
whose left part is entirely below the deadline and whose right part is
entirely not below it, the search returns the boundary index: everything
strictly before it is below the deadline, everything from it on is
not. -/
theorem indexByTimeAux_spec (keys : List ℚ) (d : ℚ) (hs : keys.Pairwise (· ≤ ·)) :
    ∀ fuel low high, high - low < fuel → low ≤ high → high ≤ keys.length →
      (∀ i (hi : i < keys.length), i < low → keys[i] < d) →
      (∀ i (hi : i < keys.length), high ≤ i → ¬ keys[i] < d) →
      low ≤ indexByTimeAux keys d fuel low high
      ∧ indexByTimeAux keys d fuel low high ≤ high
      ∧ (∀ i (hi : i < keys.length), i < indexByTimeAux keys d fuel low high →
          keys[i] < d)
      ∧ (∀ i (hi : i < keys.length), indexByTimeAux keys d fuel low high ≤ i →
          ¬ keys[i] < d) := by
  intro fuel
  induction fuel with
  | zero => intro low high hfl; omega
  | succ fuel ih =>
    intro low high hfl hlh hhl hlow hhigh
    by_cases hlt : low < high
    · have hmid1 : low ≤ (low + high) / 2 := by omega
      have hmid2 : (low + high) / 2 < high := by omega
      have hmidlen : (low + high) / 2 < keys.length := lt_of_lt_of_le hmid2 hhl
      have hget : keys[(low + high) / 2]? = some keys[(low + high) / 2] :=
        List.getElem?_eq_getElem hmidlen
      by_cases hkey : keys[(low + high) / 2] < d
      · have heq : indexByTimeAux keys d (fuel + 1) low high
            = indexByTimeAux keys d fuel ((low + high) / 2 + 1) high := by
          simp [indexByTimeAux, hlt, hget, hkey]
        rw [heq]
        obtain ⟨ha, hb, hc, hd2⟩ := ih ((low + high) / 2 + 1) high (by omega) (by omega) hhl
          (by
            intro i hi hilt
            rcases Nat.lt_or_ge i ((low + high) / 2) with hi2 | hi2
            · exact lt_of_le_of_lt (sorted_getElem_mono keys hs (le_of_lt hi2) hi hmidlen) hkey
            · have hieq : i = (low + high) / 2 := by omega
              subst hieq
              exact hkey)
          hhigh
        exact ⟨by omega, hb, hc, hd2⟩
      · have heq : indexByTimeAux keys d (fuel + 1) low high
            = indexByTimeAux keys d fuel low ((low + high) / 2) := by
          simp [indexByTimeAux, hlt, hget, hkey]
        rw [heq]
        obtain ⟨ha, hb, hc, hd2⟩ := ih low ((low + high) / 2) (by omega) (by omega)
          (le_of_lt hmidlen) hlow
          (by
            intro i hi hige hcon
            exact hkey (lt_of_le_of_lt (sorted_getElem_mono keys hs hige hmidlen hi) hcon))
        exact ⟨ha, by omega, hc, hd2⟩
    · have heq : indexByTimeAux keys d (fuel + 1) low high = low := by
        simp [indexByTimeAux, hlt]
      rw [heq]
      exact ⟨le_refl _, hlh, hlow, fun i hi hile => hhigh i hi (by omega)⟩

/-- Helper: splicing the deadline key at the boundary index of a sorted
key list keeps the list sorted. -/
theorem pairwise_spliceAt (keys : List ℚ) (d : ℚ) (n : ℕ) (hs : keys.Pairwise (· ≤ ·))
    (hbelow : ∀ i (hi : i < keys.length), i < n → keys[i] < d)
    (habove : ∀ i (hi : i < keys.length), n ≤ i → ¬ keys[i] < d) :
    (spliceAt n d keys).Pairwise (· ≤ ·) := by
  have htake : ∀ a ∈ keys.take n, a < d := by
    intro a ha
    obtain ⟨i, hi, hieq⟩ := List.mem_iff_getElem.mp ha
    have hlen : i < n ∧ i < keys.length := by
      have := List.length_take n keys
      constructor <;> omega
    rw [List.getElem_take] at hieq
    rw [← hieq]
    exact hbelow i hlen.2 hlen.1
  have hdrop : ∀ b ∈ keys.drop n, d ≤ b := by
    intro b hb
    obtain ⟨j, hj, hjeq⟩ := List.mem_iff_getElem.mp hb
    have hlen : n + j < keys.length := by
      have := List.length_drop n keys
      omega
    rw [List.getElem_drop] at hjeq
    rw [← hjeq]
    exact not_lt.mp (habove (n + j) hlen (by omega))
  apply List.pairwise_append.mpr
  refine ⟨List.Pairwise.sublist (List.take_sublist n keys) hs, ?_, ?_⟩
  · apply List.pairwise_cons.mpr
    exact ⟨hdrop, List.Pairwise.sublist (List.drop_sublist n keys) hs⟩
  · intro a ha b hb
    rcases List.mem_cons.mp hb with rfl | hb2
    · exact le_of_lt (htake a ha)
    · exact le_trans (le_of_lt (htake a ha)) (hdrop b hb2)

/-- C4 (counterexample): inserting an event whose earliest key 5 equals
the single queued key 5, the binary search returns position 0 — the new
entry is spliced in before the existing equal entry, not after it as the
claim's stable-insertion clause states (that would be position 1). -/
theorem C4_counterexample :
    indexByTime [(5 : ℚ)] 5 = 0
    ∧ spliceAt (indexByTime [(5 : ℚ)] 5) 5 [(5 : ℚ)] = [5, 5]
    ∧ indexByTime [(5 : ℚ)] 5 ≠ 1 := by
  have h0 : indexByTime [(5 : ℚ)] 5 = 0 := by
    norm_num [indexByTime, indexByTimeAux]
  exact ⟨h0, by rw [h0]; rfl, by rw [h0]; omega⟩

/-- C4 (amended): on a queue sorted by earliest bound, the binary search
returns the first position whose key is not below the new deadline;
inserting there keeps the queue sorted (so events fire in non-decreasing
order of earliest bound), and every existing entry with a key equal to
the new one lies at or after the returned position — the new event is
placed before the existing equal-key entries, not after them. -/
theorem C4_insert_order (keys : List ℚ) (d : ℚ) (hs : keys.Pairwise (· ≤ ·)) :
    indexByTime keys d ≤ keys.length
    ∧ (∀ i (hi : i < keys.length), i < indexByTime keys d → keys[i] < d)
    ∧ (∀ i (hi : i < keys.length), indexByTime keys d ≤ i → d ≤ keys[i])
    ∧ (spliceAt (indexByTime keys d) d keys).Pairwise (· ≤ ·)
    ∧ (∀ i (hi : i < keys.length), keys[i] = d → indexByTime keys d ≤ i) := by
  simp only [indexByTime]
  obtain ⟨h1, h2, h3, h4⟩ := indexByTimeAux_spec keys d hs (keys.length + 1) 0 keys.length
    (by omega) (by omega) (le_refl _) (fun i hi hlt => by omega)
    (fun i hi hge => by omega)
  refine ⟨h2, h3, fun i hi hge => not_lt.mp (h4 i hi hge), ?_, ?_⟩
  · exact pairwise_spliceAt keys d (indexByTimeAux keys d (keys.length + 1) 0 keys.length) hs h3 h4
  · intro i hi hieq
    by_contra hcon
    have := h3 i hi (by omega)
    rw [hieq] at this
    exact lt_irrefl d this

/-- C4 (witness): the amended insertion property applied to the sorted
key list [1, 2, 2, 3] with new key 2 (the search returns 1, before both
existing 2-entries). -/
theorem C4_witness :
    ([(1 : ℚ), 2, 2, 3].Pairwise (· ≤ ·))
    ∧ (indexByTime [(1 : ℚ), 2, 2, 3] 2 ≤ ([(1 : ℚ), 2, 2, 3] : List ℚ).length
      ∧ (∀ i (hi : i < ([(1 : ℚ), 2, 2, 3] : List ℚ).length),
          i < indexByTime [(1 : ℚ), 2, 2, 3] 2 → ([(1 : ℚ), 2, 2, 3] : List ℚ)[i] < 2)
      ∧ (∀ i (hi : i < ([(1 : ℚ), 2, 2, 3] : List ℚ).length),
          indexByTime [(1 : ℚ), 2, 2, 3] 2 ≤ i → 2 ≤ ([(1 : ℚ), 2, 2, 3] : List ℚ)[i])
      ∧ (spliceAt (indexByTime [(1 : ℚ), 2, 2, 3] 2) 2 [(1 : ℚ), 2, 2, 3]).Pairwise (· ≤ ·)
      ∧ (∀ i (hi : i < ([(1 : ℚ), 2, 2, 3] : List ℚ).length),
          ([(1 : ℚ), 2, 2, 3] : List ℚ)[i] = 2 → indexByTime [(1 : ℚ), 2, 2, 3] 2 ≤ i)) :=
  ⟨by norm_num [List.pairwise_cons],
    C4_insert_order [(1 : ℚ), 2, 2, 3] 2 (by norm_num [List.pairwise_cons])⟩

/-- Helper: the default-resolution block never changes the request's
delay field. -/
theorem resolveDefaults_delay (ev : ScheduleOpts) : (resolveDefaults ev).delay = ev.delay := by
  unfold resolveDefaults
  split_ifs <;> first
    | rfl
    | (cases ev.loop <;> rfl)

/-- Helper: an absent optional value never equals a present one. -/
theorem option_none_ne_some {α : Type} (a : α) : (none : Option α) ≠ some a :=
  fun h => Option.noConfusion h

/-- Helper: a finite JS number is not Infinity. -/
theorem jfin_ne_posInf (q : ℚ) : JNum.fin q ≠ JNum.posInf := fun h => JNum.noConfusion h

/-- Helper: a finite JS number is not NaN. -/
theorem jfin_ne_nan (q : ℚ) : JNum.fin q ≠ JNum.nan := fun h => JNum.noConfusion h

/-- C9 (amended): every listed invalid declarative request is rejected
with a diagnostic, no created event and no generated identifier (the
rejection paths return before the queue or the uid manager is touched):
a not-running scheduler (with the request object unchanged); delay and
loop both unset (request object unchanged); an infinite delay (the
request object may first be mutated by default resolution); and infinite
loop repetitions with interval and delay unset (request object
unchanged). -/
theorem C9_invalid_rejected (now : ℚ) (tol : Tolerance) (opts0 : ScheduleOpts) :
    (scheduleDecl false now tol opts0 = ⟨opts0, some .notRunning, none, false⟩)
    ∧ (opts0.delay = none → opts0.loop = none →
        scheduleDecl true now tol opts0 = ⟨opts0, some .mustSetOne, none, false⟩)
    ∧ (opts0.delay = some .posInf →
        (scheduleDecl true now tol opts0).warn = some .mustNotBeInfinite
        ∧ (scheduleDecl true now tol opts0).event = none
        ∧ (scheduleDecl true now tol opts0).uidGenerated = false)
    ∧ (opts0.delay = none → opts0.loop = some ⟨none, some .posInf⟩ →
        scheduleDecl true now tol opts0 = ⟨opts0, some .mustNotBeInfinite, none, false⟩) := by
  refine ⟨by simp [scheduleDecl], ?_, ?_, ?_⟩
  · intro h1 h2
    simp [scheduleDecl, resolveDefaults, isNumber, truthy, loopInterval, loopRepetitions, h1, h2]
  · intro h3
    have hdel : (resolveDefaults opts0).delay = some .posInf := by
      rw [resolveDefaults_delay]; exact h3
    simp [scheduleDecl, hdel]
  · intro h1 h2
    simp [scheduleDecl, resolveDefaults, isNumber, truthy, loopInterval, loopRepetitions, h1, h2]

/-- C9 (counterexample): the request with delay Infinity and no loop is
rejected with a diagnostic and no event, yet the caller's request object
is changed: the default-resolution step writes loop = (repetitions: 1)
into it before the infinite-delay guard runs, falsifying the claim's
clause that a rejected call leaves the request object unchanged. -/
theorem C9_counterexample :
    (scheduleDecl true 0 ⟨1 / 1000, 1 / 10⟩ c9opts).warn = some .mustNotBeInfinite
    ∧ (scheduleDecl true 0 ⟨1 / 1000, 1 / 10⟩ c9opts).event = none
    ∧ (scheduleDecl true 0 ⟨1 / 1000, 1 / 10⟩ c9opts).opts ≠ c9opts
    ∧ (scheduleDecl true 0 ⟨1 / 1000, 1 / 10⟩ c9opts).opts.loop = some ⟨none, some (.fin 1)⟩ := by
  have hloop : (scheduleDecl true 0 ⟨1 / 1000, 1 / 10⟩ c9opts).opts.loop
      = some ⟨none, some (.fin 1)⟩ := by
    norm_num [scheduleDecl, resolveDefaults, c9opts, isNumber, truthy, loopInterval,
      loopRepetitions]
  refine ⟨?_, ?_, ?_, hloop⟩
  · norm_num [scheduleDecl, resolveDefaults, c9opts, isNumber, truthy, loopInterval,
      loopRepetitions]
  · norm_num [scheduleDecl, resolveDefaults, c9opts, isNumber, truthy, loopInterval,
      loopRepetitions]
  · intro h
    rw [h] at hloop
    exact Option.noConfusion hloop

/-- C10: the declarative schedule call mutates the caller's request
object in place — a numeric delay with no loop makes it hold
loop = (repetitions: 1); an interval with no delay and no repetitions
makes it hold loop.repetitions = Infinity; on event creation a request
with no tolerance receives the clock's tolerance values (in the source
this assignment aliases the clock's internal tolerance object); and the
loop mutation also happens for the rejected request with delay Infinity,
whose tolerance field is however left untouched since event creation is
never reached. -/
theorem C10_schedule_mutates_opts :
    (∀ (now d : ℚ) (tol : Tolerance) (tolop : Option TolOpts) (cbT cbC cbA cbM : Bool),
        (scheduleDecl true now tol ⟨some (.fin d), none, tolop, cbT, cbC, cbA, cbM⟩).opts.loop
          = some ⟨none, some (.fin 1)⟩)
    ∧ (∀ (now i : ℚ) (tol : Tolerance) (cbT cbC cbA cbM : Bool),
        (scheduleDecl true now tol ⟨none, some ⟨some (.fin i), none⟩, none, cbT, cbC, cbA, cbM⟩).opts.loop
          = some ⟨some (.fin i), some .posInf⟩)
    ∧ (∀ (now d : ℚ) (tol : Tolerance) (cbT cbC cbA cbM : Bool),
        (scheduleDecl true now tol ⟨some (.fin d), none, none, cbT, cbC, cbA, cbM⟩).opts.tolerance
          = some ⟨some tol.early, some tol.late⟩)
    ∧ (∀ (now : ℚ) (tol : Tolerance) (tolop : Option TolOpts) (cbT cbC cbA cbM : Bool),
        (scheduleDecl true now tol ⟨some .posInf, none, tolop, cbT, cbC, cbA, cbM⟩).warn
          = some .mustNotBeInfinite
        ∧ (scheduleDecl true now tol ⟨some .posInf, none, tolop, cbT, cbC, cbA, cbM⟩).opts.loop
          = some ⟨none, some (.fin 1)⟩
        ∧ (scheduleDecl true now tol ⟨some .posInf, none, tolop, cbT, cbC, cbA, cbM⟩).opts.tolerance
          = tolop) := by
  refine ⟨?_, ?_, ?_, ?_⟩
  · intro now d tol tolop cbT cbC cbA cbM
    simp [scheduleDecl, resolveDefaults, fillTolerance, isNumber, truthy,
      loopInterval, loopRepetitions, getDelay, getDelayFrom]
  · intro now i tol cbT cbC cbA cbM
    simp only [scheduleDecl, resolveDefaults, fillTolerance, isNumber, truthy,
      loopInterval, loopRepetitions, getDelay, getDelayFrom]
    norm_num
    split <;> rfl
  · intro now d tol cbT cbC cbA cbM
    simp [scheduleDecl, resolveDefaults, fillTolerance, isNumber, truthy,
      loopInterval, loopRepetitions, getDelay, getDelayFrom]
  · intro now tol tolop cbT cbC cbA cbM
    simp [scheduleDecl, resolveDefaults, fillTolerance, isNumber, truthy,
      loopInterval, loopRepetitions]

/-- Helper: a one-shot event (repetitions 1, no elapsed ticks) executes
exactly once — after the firing the elapsed tick count is 1 and the
event is deleted, not requeued. -/
theorem exec_one_shot (s : ClockState) (hdel : s.deleted = false) (hrun : s.isRunning = true)
    (hsus : s.ev.suspended = false) (hrep : s.ev.repetitions = .fin 1)
    (hcount : s.ev.elapsedTickCount = 0) :
    (evStep 2 .exec s).map (fun q => (q.deleted, q.ev.elapsedTickCount, q.inQueue))
      = some (true, 1, false) := by
  by_cases h1 : s.ev.earliest ≤ s.now <;> by_cases h2 : s.now ≤ s.ev.latest <;>
    cases ht : s.ev.cbTick <;> cases hm : s.ev.cbMissed <;> cases hc : s.ev.cbComplete <;>
      norm_num [evStep, fireChoice, hdel, hrun, hsus, hrep, hcount, removeEvent, pushFired,
        deleteEvent, suspendEvent, isLooping, JNum.le, JNum.lt, h1, h2, ht, hm, hc]

/-- Helper: an infinitely repeating event whose next deadline is not yet
past due executes once and is requeued exactly one currentInterval after
its previous scheduled deadline (not relative to the current time). -/
theorem exec_repeat_requeues (s : ClockState) (hdel : s.deleted = false)
    (hrun : s.isRunning = true) (hsus : s.ev.suspended = false)
    (hrep : s.ev.repetitions = .posInf)
    (hfut : s.now < s.ev.scheduled + s.ev.currentInterval / 1000 - s.ev.tolEarly) :
    (evStep 2 .exec s).map
        (fun q => (q.ev.scheduled, q.inQueue, q.ev.elapsedTickCount, q.deleted))
      = some (s.ev.scheduled + s.ev.currentInterval / 1000, true,
          s.ev.elapsedTickCount + 1, false) := by
  have hnot : ¬ (s.ev.scheduled + s.ev.currentInterval / 1000 - s.ev.tolEarly ≤ s.now) :=
    not_le.mpr hfut
  by_cases h1 : s.ev.earliest ≤ s.now <;> by_cases h2 : s.now ≤ s.ev.latest <;>
    cases ht : s.ev.cbTick <;> cases hm : s.ev.cbMissed <;> cases hu : s.uid <;>
      norm_num [evStep, fireChoice, hdel, hrun, hsus, hrep, removeEvent, pushFired, update,
        requeue, insertEvent, isLooping, JNum.le, JNum.lt, h1, h2, ht, hm, hu, hnot]

/-- C3 (counterexample): with the clock's default tolerance at current
time 0, a request with only loop.interval = 1000 ms yields a first
scheduled deadline of 1 second — one full interval after the call, not
an immediate first tick as the claim states; and a request with
delay = 500 ms, loop.interval = 200 ms and 5 repetitions yields
currentInterval = 500 ms (the delay), so every subsequent tick is spaced
by the delay, not by loop.interval = 200 ms as the claim states. -/
theorem C3_counterexample :
    ((scheduleDecl true 0 ⟨1 / 1000, 1 / 10⟩ ⟨none, some ⟨some (.fin 1000), none⟩, none,
        true, false, false, false⟩).event.map (fun e => e.deadline)) = some (.fin 1)
    ∧ JNum.fin 1 ≠ JNum.fin 0
    ∧ ((scheduleDecl true 0 ⟨1 / 1000, 1 / 10⟩ ⟨some (.fin 500),
        some ⟨some (.fin 200), some (.fin 5)⟩, none, true, false, false, false⟩).event.map
          (fun e => e.currentInterval)) = some (.fin 500)
    ∧ JNum.fin 500 ≠ JNum.fin 200 := by
  refine ⟨?_, by norm_num, ?_, by norm_num⟩ <;>
    norm_num [scheduleDecl, resolveDefaults, fillTolerance, isNumber, truthy,
      loopInterval, loopRepetitions, getDelay, getDelayFrom, JNum.le, JNum.divC,
      JNum.mulC, JNum.addQ, Option.some_ne_none, option_none_ne_some,
      jfin_ne_posInf, jfin_ne_nan]

/-- C3 (amended): the default scheduling policy as the code implements
it, for waits of at least 50 ms (below that the wait is floored to 5 ms).
Delay set alone: repetitions defaults to 1 and the event fires exactly
once, scheduled at now + delay (the one-shot machine conjunct shows one
firing then deletion).  Interval set alone: repetitions defaults to
Infinity and the first tick is scheduled one full interval after the
call, not immediately.  Both set: the first tick is scheduled at
now + delay and the loop intervals are set to the delay — loop.interval
is ignored, so every subsequent tick is also spaced by the delay (the
repeat machine conjunct shows requeueing at scheduled +
currentInterval). -/
theorem C3_default_policy (now d i r : ℚ) (tol : Tolerance) (cbT cbC cbA cbM : Bool)
    (hd : 1 / 20 ≤ d / 1000) (hi : 1 / 20 ≤ i / 1000) :
    (scheduleDecl true now tol ⟨some (.fin d), none, none, cbT, cbC, cbA, cbM⟩).event
      = some ⟨.fin (now + d / 1000), .fin d, .fin d, some (.fin 1), tol.early, tol.late,
          cbT, cbC, cbA, cbM⟩
    ∧ (scheduleDecl true now tol ⟨none, some ⟨some (.fin i), none⟩, none, cbT, cbC, cbA, cbM⟩).event
      = some ⟨.fin (now + i / 1000), .fin i, .fin i, some .posInf, tol.early, tol.late,
          cbT, cbC, cbA, cbM⟩
    ∧ (scheduleDecl true now tol ⟨some (.fin d), some ⟨some (.fin i), some (.fin r)⟩, none,
          cbT, cbC, cbA, cbM⟩).event
      = some ⟨.fin (now + d / 1000), .fin d, .fin d, some (.fin r), tol.early, tol.late,
          cbT, cbC, cbA, cbM⟩
    ∧ (∀ s : ClockState, s.deleted = false → s.isRunning = true → s.ev.suspended = false →
        s.ev.repetitions = .fin 1 → s.ev.elapsedTickCount = 0 →
        (evStep 2 .exec s).map (fun q => (q.deleted, q.ev.elapsedTickCount, q.inQueue))
          = some (true, 1, false))
    ∧ (∀ s : ClockState, s.deleted = false → s.isRunning = true → s.ev.suspended = false →
        s.ev.repetitions = .posInf →
        s.now < s.ev.scheduled + s.ev.currentInterval / 1000 - s.ev.tolEarly →
        (evStep 2 .exec s).map
            (fun q => (q.ev.scheduled, q.inQueue, q.ev.elapsedTickCount, q.deleted))
          = some (s.ev.scheduled + s.ev.currentInterval / 1000, true,
              s.ev.elapsedTickCount + 1, false)) := by
  have hd0 : d ≠ 0 := by
    intro h
    rw [h] at hd
    norm_num at hd
  have hi0 : i ≠ 0 := by
    intro h
    rw [h] at hi
    norm_num at hi
  refine ⟨?_, ?_, ?_, fun s h1 h2 h3 h4 h5 => exec_one_shot s h1 h2 h3 h4 h5,
    fun s h1 h2 h3 h4 h5 => exec_repeat_requeues s h1 h2 h3 h4 h5⟩
  · norm_num [scheduleDecl, resolveDefaults, fillTolerance, isNumber, truthy,
      loopInterval, loopRepetitions, getDelay, getDelayFrom, JNum.le, JNum.divC,
      JNum.mulC, JNum.addQ, Option.some_ne_none, option_none_ne_some,
      hd, hd0, jfin_ne_posInf, jfin_ne_nan]
  · norm_num [scheduleDecl, resolveDefaults, fillTolerance, isNumber, truthy,
      loopInterval, loopRepetitions, getDelay, getDelayFrom, JNum.le, JNum.divC,
      JNum.mulC, JNum.addQ, Option.some_ne_none, option_none_ne_some,
      hi, hi0, jfin_ne_posInf, jfin_ne_nan]
  · norm_num [scheduleDecl, resolveDefaults, fillTolerance, isNumber, truthy,
      loopInterval, loopRepetitions, getDelay, getDelayFrom, JNum.le, JNum.divC,
      JNum.mulC, JNum.addQ, Option.some_ne_none, option_none_ne_some,
      hd, hd0, hi0, jfin_ne_posInf, jfin_ne_nan]

/-- C3 (witness): the amended default policy applied at current time 0
with delay 500 ms, interval 1000 ms, 5 repetitions and the default
tolerance. -/
theorem C3_witness :
    ((1 : ℚ) / 20 ≤ 500 / 1000 ∧ (1 : ℚ) / 20 ≤ 1000 / 1000)
    ∧ ((scheduleDecl true 0 ⟨1 / 1000, 1 / 10⟩
          ⟨some (.fin 500), none, none, true, true, false, false⟩).event
        = some ⟨.fin (0 + 500 / 1000), .fin 500, .fin 500, some (.fin 1),
            (⟨1 / 1000, 1 / 10⟩ : Tolerance).early, (⟨1 / 1000, 1 / 10⟩ : Tolerance).late,
            true, true, false, false⟩
      ∧ (scheduleDecl true 0 ⟨1 / 1000, 1 / 10⟩
          ⟨none, some ⟨some (.fin 1000), none⟩, none, true, true, false, false⟩).event
        = some ⟨.fin (0 + 1000 / 1000), .fin 1000, .fin 1000, some .posInf,
            (⟨1 / 1000, 1 / 10⟩ : Tolerance).early, (⟨1 / 1000, 1 / 10⟩ : Tolerance).late,
            true, true, false, false⟩
      ∧ (scheduleDecl true 0 ⟨1 / 1000, 1 / 10⟩
          ⟨some (.fin 500), some ⟨some (.fin 1000), some (.fin 5)⟩, none,
            true, true, false, false⟩).event
        = some ⟨.fin (0 + 500 / 1000), .fin 500, .fin 500, some (.fin 5),
            (⟨1 / 1000, 1 / 10⟩ : Tolerance).early, (⟨1 / 1000, 1 / 10⟩ : Tolerance).late,
            true, true, false, false⟩
      ∧ (∀ s : ClockState, s.deleted = false → s.isRunning = true → s.ev.suspended = false →
          s.ev.repetitions = .fin 1 → s.ev.elapsedTickCount = 0 →
          (evStep 2 .exec s).map (fun q => (q.deleted, q.ev.elapsedTickCount, q.inQueue))
            = some (true, 1, false))
      ∧ (∀ s : ClockState, s.deleted = false → s.isRunning = true → s.ev.suspended = false →
          s.ev.repetitions = .posInf →
          s.now < s.ev.scheduled + s.ev.currentInterval / 1000 - s.ev.tolEarly →
          (evStep 2 .exec s).map
              (fun q => (q.ev.scheduled, q.inQueue, q.ev.elapsedTickCount, q.deleted))
            = some (s.ev.scheduled + s.ev.currentInterval / 1000, true,
                s.ev.elapsedTickCount + 1, false))) :=
  ⟨⟨by norm_num, by norm_num⟩,
    C3_default_policy 0 500 1000 5 ⟨1 / 1000, 1 / 10⟩ true true false false
      (by norm_num) (by norm_num)⟩

end KDClock
